import Mathlib

/-!
Verification of the attention walkthrough, the training notebooks and the
checkpoint machinery of the repository.

The attention notebook operates on numpy arrays and torch tensors.  We embed
1-D arrays as `List ℝ` and 2-D arrays as `List (List ℝ)` (a list of rows), in
exact real arithmetic.  The notebook's `softmax` converts its argument to a
tensor and sums over `axis=1`, so its behaviour depends on the number of
dimensions of its input; we embed tensors of dynamic rank as the `Tensor`
type and fallible tensor operations return `Except String`.
-/

/-- A torch tensor of rank 1 (`vec`) or rank 2 (`mat`, a list of rows). -/
inductive Tensor where
  | vec (data : List ℝ) : Tensor
  | mat (data : List (List ℝ)) : Tensor

/-- `np.dot` on two 1-D arrays: the sum of the elementwise products.
(`np.dot(d, e) = d[0]*e[0] + d[1]*e[1] + ...`.) -/
noncomputable def npdot (d e : List ℝ) : ℝ :=
  (List.zipWith (fun a b => a * b) d e).sum

/-- `np.transpose` of a 2-D array given as a list of rows: the list of its
columns.  Column `j` holds entry `j` of every row. -/
noncomputable def nptranspose (A : List (List ℝ)) : List (List ℝ) :=
  (List.range A.headI.length).map (fun j => A.map (fun r => r.getD j 0))

/-- Matrix product `A @ B` on 2-D arrays: entry `(i, j)` is the dot product
of row `i` of `A` with column `j` of `B`. -/
noncomputable def npmatmul (A B : List (List ℝ)) : List (List ℝ) :=
  A.map (fun row => (nptranspose B).map (fun col => npdot row col))

/-- `single_dot_attention_score(dec_hidden_state, enc_hidden_state)` from the
attention notebook: `np.dot(dec_hidden_state, enc_hidden_state)`. -/
noncomputable def single_dot_attention_score (dec_hidden_state enc_hidden_state : List ℝ) : ℝ :=
  npdot dec_hidden_state enc_hidden_state

/-- `dot_attention_score(dec_hidden_state, annotations)` from the attention
notebook: `dec_hidden_state.T @ annotations`, where `dec_hidden_state` is
passed as the column matrix `dec_hidden_state[:, None]`. -/
noncomputable def dot_attention_score (dec_hidden_state annotations : List (List ℝ)) : List (List ℝ) :=
  npmatmul (nptranspose dec_hidden_state) annotations

/-- Broadcast division of a 2-D tensor of shape `(m, n)` by a 1-D tensor of
shape `(m,)`, as torch performs it in `e_x / e_x.sum(axis=1)`.  The two
shapes are aligned on their trailing dimensions (`n` against `m`): a
singleton sum divides every entry, matching trailing dimensions divide
columnwise, and incompatible shapes raise a size-mismatch error. -/
noncomputable def divBroadcast (A : List (List ℝ)) (s : List ℝ) : Except String Tensor :=
  match s with
  | [t] => Except.ok (Tensor.mat (A.map (fun r => r.map (fun v => v / t))))
  | _ =>
      if A.headI.length = s.length then
        Except.ok (Tensor.mat (A.map (fun r => List.zipWith (fun v t => v / t) r s)))
      else if A.headI.length = 1 then
        Except.ok (Tensor.mat (A.map (fun r => s.map (fun t => r.headI / t))))
      else
        Except.error "The size of tensor a must match the size of tensor b at non-singleton dimension 1"

/-- `softmax(x)` from the attention notebook:
`x = torch.FloatTensor(x); e_x = torch.exp(x); return e_x / e_x.sum(axis=1)`.
Summing over `axis=1` requires a 2-D input: on a 1-D tensor torch raises a
dimension-out-of-range error (a 1-D tensor only has axis 0). -/
noncomputable def softmax : Tensor → Except String Tensor
  | Tensor.vec _ =>
      Except.error "Dimension out of range (expected to be in range of [-1, 0], but got 1)"
  | Tensor.mat rows =>
      let e_x := rows.map (fun r => r.map Real.exp)
      divBroadcast e_x (e_x.map (fun r => r.sum))

/-- `apply_attention_scores(attention_weights, annotations)` from the
attention notebook: `attention_weights * annotations`.  The weights are the
single row of the `1 × n` softmax output and broadcasting multiplies entry
`(k, i)` of the annotations by weight `i`. -/
noncomputable def apply_attention_scores (attention_weights : List ℝ) (annotations : List (List ℝ)) : List (List ℝ) :=
  annotations.map (fun row => List.zipWith (fun w a => w * a) attention_weights row)

/-- `calculate_attention_vector(applied_attention)` from the attention
notebook: `np.sum(applied_attention, axis=1)`, the list of row sums. -/
noncomputable def calculate_attention_vector (applied_attention : List (List ℝ)) : List ℝ :=
  applied_attention.map (fun row => row.sum)

/-- `dec_hidden_state = np.array([0.5, 0.1, 2])` from the attention notebook. -/
noncomputable def dec_hidden_state : List ℝ := [0.5, 0.1, 2]

/-- `annotations = np.transpose([[3,12,45], [59,2,5], [1,43,5], [4,3,45.3]])/10`
from the attention notebook: a `3 × 4` matrix whose columns are the encoder
hidden states. -/
noncomputable def annotations : List (List ℝ) :=
  (nptranspose [[3, 12, 45], [59, 2, 5], [1, 43, 5], [4, 3, 45.3]]).map
    (fun r => r.map (fun v => v / 10))

/-- `attention_weights_raw = dot_attention_score(dec_hidden_state[:,None], annotations)`
from the attention notebook (`dec_hidden_state[:, None]` is the `3 × 1`
column matrix of the decoder hidden state). -/
noncomputable def attention_weights_raw : List (List ℝ) :=
  dot_attention_score (dec_hidden_state.map (fun x => [x])) annotations

/-- `attention_weights = softmax(attention_weights_raw)` from the attention
notebook (`torch.FloatTensor` of a 2-D numpy array is a rank-2 tensor). -/
noncomputable def attention_weights : Except String Tensor :=
  softmax (Tensor.mat attention_weights_raw)

/-!
Embedding of the two models of the training notebook (Part 3).  Layers are
embedded as functions on `Fin`-indexed real vectors; a `Linear(n, m)` layer
is a weight matrix and a bias, `ReLU` is the pointwise maximum with zero and
`LogSoftmax(dim=1)` maps each row of scores to its log-probabilities.
-/

/-- `nn.ReLU` applied to one entry: `max(x, 0)`. -/
noncomputable def relu (x : ℝ) : ℝ := max x 0

/-- `nn.Linear(n, m)`: affine map `x ↦ W x + b` with weight `W : m × n` and
bias `b : m`. -/
noncomputable def linear {m n : ℕ} (W : Fin m → Fin n → ℝ) (b : Fin m → ℝ)
    (x : Fin n → ℝ) : Fin m → ℝ :=
  fun i => (∑ j, W i j * x j) + b i

/-- `nn.LogSoftmax(dim=1)` on one row of scores:
`x_i ↦ x_i - log (∑ j, exp x_j)`. -/
noncomputable def logSoftmax {n : ℕ} (x : Fin n → ℝ) : Fin n → ℝ :=
  fun i => x i - Real.log (∑ j, Real.exp (x j))

/-- The CrossEntropyLoss model of the training notebook:
`nn.Sequential(nn.Linear(784, 128), nn.ReLU(), nn.Linear(128, 64), nn.ReLU(),
nn.Linear(64, 10))` applied to one flattened image; `logits = model(images)`
is this output, fed directly to `nn.CrossEntropyLoss`. -/
noncomputable def model_logits (W1 : Fin 128 → Fin 784 → ℝ) (b1 : Fin 128 → ℝ)
    (W2 : Fin 64 → Fin 128 → ℝ) (b2 : Fin 64 → ℝ)
    (W3 : Fin 10 → Fin 64 → ℝ) (b3 : Fin 10 → ℝ)
    (image : Fin 784 → ℝ) : Fin 10 → ℝ :=
  linear W3 b3 (fun i => relu (linear W2 b2 (fun j => relu (linear W1 b1 image j)) i))

/-- The LogSoftmax model of the training notebook: the same stack with
`nn.LogSoftmax(dim=1)` appended; the notebook also names this output
`logits` (`logits = model(images)`) and feeds it to `nn.NLLLoss`. -/
noncomputable def model2_logits (W1 : Fin 128 → Fin 784 → ℝ) (b1 : Fin 128 → ℝ)
    (W2 : Fin 64 → Fin 128 → ℝ) (b2 : Fin 64 → ℝ)
    (W3 : Fin 10 → Fin 64 → ℝ) (b3 : Fin 10 → ℝ)
    (image : Fin 784 → ℝ) : Fin 10 → ℝ :=
  logSoftmax (model_logits W1 b1 W2 b2 W3 b3 image)

/-!
Embedding of the training loop body of Part 3 (`logits = model(images)`,
`loss = criterion(logits, labels)`, `optimizer.zero_grad()`,
`loss.backward()`, `optimizer.step()`).  The parameter/gradient state is a
`TrainState`; the forward pass and loss are pure, and `loss.backward`
accumulates into the stored gradients the gradient `G` of the current
batch's loss at the current weights, which `optimizer.step` (SGD) then uses.
-/

/-- One named operation in the body of the training loop. -/
inductive TrainStep where
  | forward_pass : TrainStep
  | zero_grad : TrainStep
  | backward : TrainStep
  | step : TrainStep
deriving DecidableEq

/-- The operations of the training-loop body in the order they appear in
the source: forward/loss, `optimizer.zero_grad()`, `loss.backward()`,
`optimizer.step()`. -/
def training_pass_steps : List TrainStep :=
  [TrainStep.forward_pass, TrainStep.zero_grad, TrainStep.backward, TrainStep.step]

/-- The mutable state that the training loop threads through one batch:
the model parameters and their accumulated gradients. -/
structure TrainState (n : ℕ) where
  weights : Fin n → ℝ
  grad : Fin n → ℝ

/-- `optimizer.zero_grad()`: clears the accumulated gradients. -/
def optimizer_zero_grad {n : ℕ} (s : TrainState n) : TrainState n :=
  { s with grad := fun _ => 0 }

/-- `loss.backward()`: autograd adds the gradient of the current batch's
loss at the current weights to the accumulated gradients.  `G w batch` is
the gradient of the loss of `batch` at weights `w`. -/
noncomputable def loss_backward {n : ℕ} {β : Type}
    (G : (Fin n → ℝ) → β → Fin n → ℝ) (batch : β) (s : TrainState n) : TrainState n :=
  { s with grad := fun i => s.grad i + G s.weights batch i }

/-- `optimizer.step()` for `optim.SGD`: `w := w - lr * grad`. -/
noncomputable def optimizer_step {n : ℕ} (lr : ℝ) (s : TrainState n) : TrainState n :=
  { s with weights := fun i => s.weights i - lr * s.grad i }

/-- The body of the training loop for one batch, composing the operations
in source order: forward and loss (pure, folded into `G`), then
`optimizer.zero_grad()`, then `loss.backward()`, then `optimizer.step()`. -/
noncomputable def training_pass {n : ℕ} {β : Type}
    (G : (Fin n → ℝ) → β → Fin n → ℝ) (lr : ℝ) (batch : β)
    (s : TrainState n) : TrainState n :=
  optimizer_step lr (loss_backward G batch (optimizer_zero_grad s))

/-!
Embedding of the checkpoint machinery of Part 6.  The notebook's model class
`fc_model.Network` is imported from a module that is not part of the
sources, so the network and the state-dict operations are modelled from the
spec: a feed-forward network is described by an input size, an output size
and a list of hidden-layer sizes, and carries a state dict of weight/bias
tensors, one pair per linear layer; `torch.save`/`torch.load` round-trip a
checkpoint value unchanged, so they are embedded as the identity.
-/

/-- The parameters of one linear layer: the weight matrix (a list of
`out_features` rows of length `in_features`) and the bias (length
`out_features`). -/
abbrev LayerParams := List (List ℝ) × List ℝ

/-- A state dict: the layer parameters of the network's linear layers in
order (hidden layers first, then the output layer). -/
abbrev StateDict := List LayerParams

/-- The `(in_features, out_features)` sizes of the linear layers of a
network with the given input size, output size and hidden sizes: hidden
layers chain `input :: hidden`, and the output layer maps the last hidden
size to the output size. -/
def layer_dims (input_size output_size : ℕ) (hidden_layers : List ℕ) : List (ℕ × ℕ) :=
  List.zip (input_size :: hidden_layers) (hidden_layers ++ [output_size])

/-- Modelled from the spec: a feed-forward network "described by a list of
layer sizes" together with its "weight tensors" (the state dict).  This
stands in for `fc_model.Network`, which is imported by the notebook but not
among the sources. -/
structure Network where
  input_size : ℕ
  output_size : ℕ
  hidden_layers : List ℕ
  state_dict : StateDict

/-- Whether one layer's saved parameters have the tensor shapes `d`
requires: `d.2` weight rows of length `d.1` and `d.2` bias entries. -/
def layer_shape_ok (p : LayerParams) (d : ℕ × ℕ) : Bool :=
  p.1.length == d.2 && p.1.all (fun row => row.length == d.1) && p.2.length == d.2

/-- Whether a state dict's tensor shapes all match the given layer sizes. -/
def shapes_ok (sd : StateDict) (dims : List (ℕ × ℕ)) : Bool :=
  sd.length == dims.length && (List.zip sd dims).all (fun q => layer_shape_ok q.1 q.2)

/-- Freshly initialised parameters with the given layer sizes (parameter
values are irrelevant to the claims, so the random initialisation is
embedded as zeros of the right shapes). -/
def init_sd_of_dims (dims : List (ℕ × ℕ)) : StateDict :=
  dims.map (fun d => (List.replicate d.2 (List.replicate d.1 (0 : ℝ)), List.replicate d.2 (0 : ℝ)))

/-- Modelled from the spec: constructing `fc_model.Network(input, output,
hidden)` creates linear layers whose parameter shapes are the architecture's
layer sizes. -/
def init_sd (input_size output_size : ℕ) (hidden_layers : List ℕ) : StateDict :=
  init_sd_of_dims (layer_dims input_size output_size hidden_layers)

/-- Modelled from the spec: `model.load_state_dict(state_dict)` succeeds
and replaces the model's parameters when every saved tensor's shape matches
the model's architecture, and otherwise raises a size-mismatch error and
leaves the model's parameters unchanged.  The returned pair is the model
after the call and the raised error, if any. -/
def load_state_dict (m : Network) (sd : StateDict) : Network × Option String :=
  if shapes_ok sd (layer_dims m.input_size m.output_size m.hidden_layers) then
    ({ m with state_dict := sd }, none)
  else
    (m, some "Error(s) in loading state_dict for Network: size mismatch")

/-- The checkpoint dictionary of Part 6: `{input_size, output_size,
hidden_layers, state_dict}`, with the hidden sizes read off the model's
hidden layers (`[each.out_features for each in model.hidden_layers]`). -/
structure Checkpoint where
  input_size : ℕ
  output_size : ℕ
  hidden_layers : List ℕ
  state_dict : StateDict

/-- The checkpoint built from a model in Part 6 before `torch.save`
(`torch.save`/`torch.load` round-trip the value unchanged, so the saved
file is embedded as the checkpoint value itself). -/
def checkpoint_of (m : Network) : Checkpoint :=
  { input_size := m.input_size
    output_size := m.output_size
    hidden_layers := m.hidden_layers
    state_dict := m.state_dict }

/-- `load_checkpoint(filepath)` from Part 6: read the checkpoint, rebuild
`fc_model.Network(checkpoint.input_size, checkpoint.output_size,
checkpoint.hidden_layers)` and load the saved state dict into it. -/
def load_checkpoint (c : Checkpoint) : Network × Option String :=
  load_state_dict
    { input_size := c.input_size
      output_size := c.output_size
      hidden_layers := c.hidden_layers
      state_dict := init_sd c.input_size c.output_size c.hidden_layers }
    c.state_dict

/-!
Helper lemmas shared by the claim theorems.
-/

/-- A list of length four is a four-element list literal. -/
theorem list_len_four {α : Type} {l : List α} (h : l.length = 4) :
    ∃ a b c d, l = [a, b, c, d] := by
  match l, h with
  | [a, b, c, d], _ => exact ⟨a, b, c, d, rfl⟩

/-- On a single-row matrix the notebook's softmax succeeds: every entry is
exponentiated and divided by the row's total. -/
theorem softmax_row (x : List ℝ) :
    softmax (Tensor.mat [x]) =
      Except.ok (Tensor.mat [x.map (fun v => Real.exp v / (x.map Real.exp).sum)]) := by
  simp [softmax, divBroadcast, List.map_map]

/-- Dividing every entry of a list by a constant divides its sum. -/
theorem sum_map_div (l : List ℝ) (c : ℝ) :
    (l.map (fun v => v / c)).sum = l.sum / c := by
  induction l with
  | nil => simp
  | cons a t ih => simp [ih, add_div]

/-- The total of the exponentials of a nonempty list is positive. -/
theorem sum_map_exp_pos (l : List ℝ) (hl : l ≠ []) : 0 < (l.map Real.exp).sum := by
  cases l with
  | nil => simp at hl
  | cons a t =>
      simp only [List.map_cons, List.sum_cons]
      have ht : 0 ≤ (t.map Real.exp).sum :=
        List.sum_nonneg (by
          intro v hv
          simp only [List.mem_map] at hv
          obtain ⟨u, -, rfl⟩ := hv
          exact (Real.exp_pos u).le)
      have := Real.exp_pos a
      linarith

/-- A convex combination of four reals with nonnegative weights summing to
one lies between their minimum and their maximum. -/
theorem convex_bound (w0 w1 w2 w3 a0 a1 a2 a3 : ℝ)
    (h0 : 0 ≤ w0) (h1 : 0 ≤ w1) (h2 : 0 ≤ w2) (h3 : 0 ≤ w3)
    (hs : w0 + w1 + w2 + w3 = 1) :
    min (min (min a0 a1) a2) a3 ≤ w0 * a0 + w1 * a1 + w2 * a2 + w3 * a3
    ∧ w0 * a0 + w1 * a1 + w2 * a2 + w3 * a3 ≤ max (max (max a0 a1) a2) a3 := by
  have hm0 : min (min (min a0 a1) a2) a3 ≤ a0 :=
    (min_le_left _ _).trans ((min_le_left _ _).trans (min_le_left _ _))
  have hm1 : min (min (min a0 a1) a2) a3 ≤ a1 :=
    (min_le_left _ _).trans ((min_le_left _ _).trans (min_le_right _ _))
  have hm2 : min (min (min a0 a1) a2) a3 ≤ a2 :=
    (min_le_left _ _).trans (min_le_right _ _)
  have hm3 : min (min (min a0 a1) a2) a3 ≤ a3 := min_le_right _ _
  have hM0 : a0 ≤ max (max (max a0 a1) a2) a3 :=
    (le_max_left _ _).trans ((le_max_left _ _).trans (le_max_left _ _))
  have hM1 : a1 ≤ max (max (max a0 a1) a2) a3 :=
    (le_max_right _ _).trans ((le_max_left _ _).trans (le_max_left _ _))
  have hM2 : a2 ≤ max (max (max a0 a1) a2) a3 :=
    (le_max_right _ _).trans (le_max_left _ _)
  have hM3 : a3 ≤ max (max (max a0 a1) a2) a3 := le_max_right _ _
  have e1 : (w0 + w1 + w2 + w3) * (min (min (min a0 a1) a2) a3)
      = min (min (min a0 a1) a2) a3 := by rw [hs, one_mul]
  have e2 : (w0 + w1 + w2 + w3) * (max (max (max a0 a1) a2) a3)
      = max (max (max a0 a1) a2) a3 := by rw [hs, one_mul]
  constructor
  · nlinarith [mul_le_mul_of_nonneg_left hm0 h0, mul_le_mul_of_nonneg_left hm1 h1,
      mul_le_mul_of_nonneg_left hm2 h2, mul_le_mul_of_nonneg_left hm3 h3, e1]
  · nlinarith [mul_le_mul_of_nonneg_left hM0 h0, mul_le_mul_of_nonneg_left hM1 h1,
      mul_le_mul_of_nonneg_left hM2 h2, mul_le_mul_of_nonneg_left hM3 h3, e2]

/-!
The claims.
-/

/-- Claim C1: for every decoder hidden state `d` (a 3-vector) and every
annotation matrix `A` (3 rows, 4 columns), the composed attention sequence
`dot_attention_score`, then `softmax` of the scores, then
`apply_attention_scores`, then `calculate_attention_vector` returns the
weighted sum of the encoder states: component `k` of the result is the sum
over columns `i` of the softmax weight `i` times `A[k][i]`. -/
theorem attention_pipeline_weighted_sum (d : List ℝ) (A : List (List ℝ)) (w : List ℝ)
    (hd : d.length = 3) (hA : A.length = 3) (hr : ∀ r ∈ A, r.length = 4)
    (hw : softmax (Tensor.mat (dot_attention_score (d.map (fun x => [x])) A))
            = Except.ok (Tensor.mat [w]))
    (k : ℕ) (hk : k < 3) :
    (calculate_attention_vector (apply_attention_scores w A)).getD k 0
      = ∑ i ∈ Finset.range 4, w.getD i 0 * ((A.getD k []).getD i 0) := by
  obtain ⟨d0, d1, d2, rfl⟩ := List.length_eq_three.mp hd
  obtain ⟨r0, r1, r2, rfl⟩ := List.length_eq_three.mp hA
  obtain ⟨a0, a1, a2, a3, hr0⟩ := list_len_four (hr r0 (by simp))
  obtain ⟨b0, b1, b2, b3, hr1⟩ := list_len_four (hr r1 (by simp))
  obtain ⟨c0, c1, c2, c3, hr2⟩ := list_len_four (hr r2 (by simp))
  subst hr0 hr1 hr2
  simp only [dot_attention_score, npmatmul, nptranspose, npdot] at hw
  norm_num [List.range_succ] at hw
  rw [softmax_row] at hw
  simp only [Except.ok.injEq, Tensor.mat.injEq, List.cons.injEq, and_true] at hw
  subst hw
  interval_cases k <;>
    norm_num [dot_attention_score, npmatmul, nptranspose, npdot,
      apply_attention_scores, calculate_attention_vector,
      List.range_succ, Finset.sum_range_succ] <;> ring

/-- Witness for C1 at the decoder state `[0, 0, 0]` and a concrete `3 × 4`
annotation matrix, whose softmax weights are all `1/4`. -/
theorem attention_pipeline_weighted_sum_witness :
    (calculate_attention_vector (apply_attention_scores
        [1 / 4, 1 / 4, 1 / 4, 1 / 4] [[1, 2, 3, 4], [5, 6, 7, 8], [9, 10, 11, 12]])).getD 0 0
      = ∑ i ∈ Finset.range 4,
          ([1 / 4, 1 / 4, 1 / 4, 1 / 4] : List ℝ).getD i 0 *
            ((([[1, 2, 3, 4], [5, 6, 7, 8], [9, 10, 11, 12]] : List (List ℝ)).getD 0 []).getD i 0) :=
  attention_pipeline_weighted_sum [0, 0, 0] [[1, 2, 3, 4], [5, 6, 7, 8], [9, 10, 11, 12]]
    [1 / 4, 1 / 4, 1 / 4, 1 / 4] rfl rfl
    (by
      intro r hrm
      simp only [List.mem_cons, List.not_mem_nil, or_false] at hrm
      rcases hrm with rfl | rfl | rfl <;> rfl)
    (by
      simp only [dot_attention_score, npmatmul, nptranspose, npdot]
      norm_num [List.range_succ]
      rw [softmax_row]
      norm_num [Real.exp_zero])
    0 (by norm_num)

/-- Claim C2: for every (nonempty) real score vector given to the
notebook's softmax — a `1 × n` row, as in the walkthrough — every entry of
the output is nonnegative and the output entries sum to exactly one. -/
theorem softmax_prob_distribution (x : List ℝ) (hx : x ≠ []) (w : List ℝ)
    (hw : softmax (Tensor.mat [x]) = Except.ok (Tensor.mat [w])) :
    (∀ v ∈ w, 0 ≤ v) ∧ w.sum = 1 := by
  rw [softmax_row] at hw
  simp only [Except.ok.injEq, Tensor.mat.injEq, List.cons.injEq, and_true] at hw
  subst hw
  have hT := sum_map_exp_pos x hx
  constructor
  · intro v hv
    simp only [List.mem_map] at hv
    obtain ⟨u, -, rfl⟩ := hv
    positivity
  · have h2 : x.map (fun v => Real.exp v / (x.map Real.exp).sum)
        = (x.map Real.exp).map (fun v => v / (x.map Real.exp).sum) := by
      simp [List.map_map]
    rw [h2, sum_map_div, div_self (ne_of_gt hT)]

/-- Witness for C2 at the score row `[0]`, whose softmax is `[1]`. -/
theorem softmax_prob_distribution_witness :
    (∀ v ∈ ([1] : List ℝ), 0 ≤ v) ∧ ([1] : List ℝ).sum = 1 :=
  softmax_prob_distribution [0] (by simp) [1]
    (by rw [softmax_row]; norm_num [Real.exp_zero])

/-- Counterexample to claim C6: the notebook's softmax is not total on
plain 1-dimensional score vectors — `e_x.sum(axis=1)` raises a
dimension-out-of-range error on a 1-D tensor, here on the vector
`[0.5, 0.1, 2]`. -/
theorem softmax_raises_on_1d_vector :
    softmax (Tensor.vec [0.5, 0.1, 2])
      = Except.error "Dimension out of range (expected to be in range of [-1, 0], but got 1)" :=
  rfl

/-- Claim C6 as amended: the attention-scoring operations are total on the
shapes the walkthrough uses — on every `1 × n` row matrix the softmax
returns a value — but softmax is not total on arbitrary input: on every
plain 1-dimensional score vector its `sum(axis=1)` raises a
dimension-out-of-range error instead of returning a value. -/
theorem softmax_totality_by_rank :
    (∀ x : List ℝ, softmax (Tensor.mat [x])
        = Except.ok (Tensor.mat [x.map (fun v => Real.exp v / (x.map Real.exp).sum)]))
    ∧ (∀ x : List ℝ, softmax (Tensor.vec x)
        = Except.error "Dimension out of range (expected to be in range of [-1, 0], but got 1)") :=
  ⟨fun x => softmax_row x, fun _ => rfl⟩

/-- Claim C8: in the attention walkthrough the decoder hidden state has 3
components, there are 4 annotations (the columns of the annotation matrix)
of 3 components each, and the raw-score row and the attention-weight row
each have 4 entries. -/
theorem attention_walkthrough_sizes :
    dec_hidden_state.length = 3
    ∧ (nptranspose annotations).length = 4
    ∧ (∀ c ∈ nptranspose annotations, c.length = 3)
    ∧ attention_weights_raw.length = 1
    ∧ (∀ r ∈ attention_weights_raw, r.length = 4)
    ∧ (∃ w : List ℝ, attention_weights = Except.ok (Tensor.mat [w]) ∧ w.length = 4) := by
  obtain ⟨r, hr, hrl⟩ : ∃ r, attention_weights_raw = [r] ∧ r.length = 4 :=
    ⟨attention_weights_raw.headI, rfl, rfl⟩
  refine ⟨rfl, rfl, ?_, ?_, ?_, ?_⟩
  · intro c hc
    have hco : nptranspose annotations
        = [annotations.map (fun r => r.getD 0 0), annotations.map (fun r => r.getD 1 0),
           annotations.map (fun r => r.getD 2 0), annotations.map (fun r => r.getD 3 0)] := rfl
    rw [hco] at hc
    simp only [List.mem_cons, List.not_mem_nil, or_false] at hc
    rcases hc with rfl | rfl | rfl | rfl <;> rfl
  · rw [hr]; rfl
  · intro s hs
    rw [hr] at hs
    rcases List.mem_singleton.mp hs with rfl
    exact hrl
  · refine ⟨r.map (fun v => Real.exp v / (r.map Real.exp).sum), ?_, by simp [hrl]⟩
    rw [attention_weights, hr, softmax_row]

/-- Claim C9: for a 3-vector decoder state and a `3 × 4` annotation matrix,
entry `i` of `dot_attention_score` equals `single_dot_attention_score` of
the decoder state with column `i` of the annotations: scoring by matrix
multiplication agrees with scoring each annotation individually. -/
theorem dot_attention_score_refines_single (d : List ℝ) (A : List (List ℝ))
    (hd : d.length = 3) (hA : A.length = 3) (hr : ∀ r ∈ A, r.length = 4)
    (i : ℕ) (hi : i < 4) :
    ((dot_attention_score (d.map (fun x => [x])) A).headI).getD i 0
      = single_dot_attention_score d ((nptranspose A).getD i []) := by
  obtain ⟨d0, d1, d2, rfl⟩ := List.length_eq_three.mp hd
  obtain ⟨r0, r1, r2, rfl⟩ := List.length_eq_three.mp hA
  obtain ⟨a0, a1, a2, a3, hr0⟩ := list_len_four (hr r0 (by simp))
  obtain ⟨b0, b1, b2, b3, hr1⟩ := list_len_four (hr r1 (by simp))
  obtain ⟨c0, c1, c2, c3, hr2⟩ := list_len_four (hr r2 (by simp))
  subst hr0 hr1 hr2
  interval_cases i <;> norm_num [dot_attention_score, npmatmul, nptranspose, npdot,
    single_dot_attention_score, List.range_succ]

/-- Witness for C9 at the walkthrough's own decoder state and annotation
matrix, scoring column 0. -/
theorem dot_attention_score_refines_single_witness :
    ((dot_attention_score (dec_hidden_state.map (fun x => [x])) annotations).headI).getD 0 0
      = single_dot_attention_score dec_hidden_state ((nptranspose annotations).getD 0 []) :=
  dot_attention_score_refines_single dec_hidden_state annotations rfl rfl
    (by
      intro r hrm
      have hco : annotations
          = [[3 / 10, 59 / 10, 1 / 10, 4 / 10], [12 / 10, 2 / 10, 43 / 10, 3 / 10],
             [45 / 10, 5 / 10, 5 / 10, 45.3 / 10]] := rfl
      rw [hco] at hrm
      simp only [List.mem_cons, List.not_mem_nil, or_false] at hrm
      rcases hrm with rfl | rfl | rfl <;> rfl)
    0 (by norm_num)

/-- Claim C10: the attention context vector is a convex combination of the
annotation columns: for every `3 × 4` annotation matrix and every weight
row produced by softmax from a 4-entry score row, each component `k` of the
context vector lies between the minimum and the maximum of row `k` of the
annotations. -/
theorem context_vector_convex_combination (x : List ℝ) (hx : x.length = 4)
    (A : List (List ℝ)) (hA : A.length = 3) (hr : ∀ r ∈ A, r.length = 4)
    (w : List ℝ)
    (hw : softmax (Tensor.mat [x]) = Except.ok (Tensor.mat [w]))
    (k : ℕ) (hk : k < 3) :
    min (min (min ((A.getD k []).getD 0 0) ((A.getD k []).getD 1 0)) ((A.getD k []).getD 2 0))
        ((A.getD k []).getD 3 0)
      ≤ (calculate_attention_vector (apply_attention_scores w A)).getD k 0
    ∧ (calculate_attention_vector (apply_attention_scores w A)).getD k 0
      ≤ max (max (max ((A.getD k []).getD 0 0) ((A.getD k []).getD 1 0)) ((A.getD k []).getD 2 0))
          ((A.getD k []).getD 3 0) := by
  obtain ⟨x0, x1, x2, x3, rfl⟩ := list_len_four hx
  obtain ⟨r0, r1, r2, rfl⟩ := List.length_eq_three.mp hA
  obtain ⟨a0, a1, a2, a3, hr0⟩ := list_len_four (hr r0 (by simp))
  obtain ⟨b0, b1, b2, b3, hr1⟩ := list_len_four (hr r1 (by simp))
  obtain ⟨c0, c1, c2, c3, hr2⟩ := list_len_four (hr r2 (by simp))
  subst hr0 hr1 hr2
  rw [softmax_row] at hw
  simp only [Except.ok.injEq, Tensor.mat.injEq, List.cons.injEq, and_true] at hw
  subst hw
  have hS : (0 : ℝ) < (List.map Real.exp [x0, x1, x2, x3]).sum :=
    sum_map_exp_pos _ (by simp)
  have hSs : (List.map Real.exp [x0, x1, x2, x3]).sum
      = Real.exp x0 + Real.exp x1 + Real.exp x2 + Real.exp x3 := by
    simp; ring
  set S := (List.map Real.exp [x0, x1, x2, x3]).sum with hSdef
  have hsum : Real.exp x0 / S + Real.exp x1 / S + Real.exp x2 / S + Real.exp x3 / S = 1 := by
    rw [div_add_div_same, div_add_div_same, div_add_div_same, ← hSs]
    exact div_self hS.ne'
  have hcb0 := convex_bound (Real.exp x0 / S) (Real.exp x1 / S) (Real.exp x2 / S)
    (Real.exp x3 / S) a0 a1 a2 a3 (by positivity) (by positivity) (by positivity)
    (by positivity) hsum
  have hcb1 := convex_bound (Real.exp x0 / S) (Real.exp x1 / S) (Real.exp x2 / S)
    (Real.exp x3 / S) b0 b1 b2 b3 (by positivity) (by positivity) (by positivity)
    (by positivity) hsum
  have hcb2 := convex_bound (Real.exp x0 / S) (Real.exp x1 / S) (Real.exp x2 / S)
    (Real.exp x3 / S) c0 c1 c2 c3 (by positivity) (by positivity) (by positivity)
    (by positivity) hsum
  interval_cases k <;>
    simp only [calculate_attention_vector, apply_attention_scores, List.map_cons,
      List.map_nil, List.zipWith_cons_cons, List.zipWith_nil_right, List.sum_cons,
      List.sum_nil, List.getD_cons_zero, List.getD_cons_succ] <;>
    constructor
  · linarith [hcb0.1]
  · linarith [hcb0.2]
  · linarith [hcb1.1]
  · linarith [hcb1.2]
  · linarith [hcb2.1]
  · linarith [hcb2.2]

/-- Witness for C10 at the score row `[0, 0, 0, 0]` (softmax weights all
`1/4`), a concrete `3 × 4` annotation matrix, and component 0. -/
theorem context_vector_convex_combination_witness :
    min (min (min ((([[1, 2, 3, 4], [5, 6, 7, 8], [9, 10, 11, 12]] : List (List ℝ)).getD 0 []).getD 0 0)
            ((([[1, 2, 3, 4], [5, 6, 7, 8], [9, 10, 11, 12]] : List (List ℝ)).getD 0 []).getD 1 0))
          ((([[1, 2, 3, 4], [5, 6, 7, 8], [9, 10, 11, 12]] : List (List ℝ)).getD 0 []).getD 2 0))
        ((([[1, 2, 3, 4], [5, 6, 7, 8], [9, 10, 11, 12]] : List (List ℝ)).getD 0 []).getD 3 0)
      ≤ (calculate_attention_vector (apply_attention_scores
          [1 / 4, 1 / 4, 1 / 4, 1 / 4] [[1, 2, 3, 4], [5, 6, 7, 8], [9, 10, 11, 12]])).getD 0 0
    ∧ (calculate_attention_vector (apply_attention_scores
          [1 / 4, 1 / 4, 1 / 4, 1 / 4] [[1, 2, 3, 4], [5, 6, 7, 8], [9, 10, 11, 12]])).getD 0 0
      ≤ max (max (max ((([[1, 2, 3, 4], [5, 6, 7, 8], [9, 10, 11, 12]] : List (List ℝ)).getD 0 []).getD 0 0)
            ((([[1, 2, 3, 4], [5, 6, 7, 8], [9, 10, 11, 12]] : List (List ℝ)).getD 0 []).getD 1 0))
          ((([[1, 2, 3, 4], [5, 6, 7, 8], [9, 10, 11, 12]] : List (List ℝ)).getD 0 []).getD 2 0))
        ((([[1, 2, 3, 4], [5, 6, 7, 8], [9, 10, 11, 12]] : List (List ℝ)).getD 0 []).getD 3 0) :=
  context_vector_convex_combination [0, 0, 0, 0] rfl
    [[1, 2, 3, 4], [5, 6, 7, 8], [9, 10, 11, 12]] rfl
    (by
      intro r hrm
      simp only [List.mem_cons, List.not_mem_nil, or_false] at hrm
      rcases hrm with rfl | rfl | rfl <;> rfl)
    [1 / 4, 1 / 4, 1 / 4, 1 / 4]
    (by rw [softmax_row]; norm_num [Real.exp_zero])
    0 (by norm_num)

/-- Exponentiating a log-softmax row always yields a probability
distribution: the exponentials sum to one. -/
theorem exp_logSoftmax_sum_one {n : ℕ} [NeZero n] (y : Fin n → ℝ) :
    ∑ i, Real.exp (logSoftmax y i) = 1 := by
  have hS : (0 : ℝ) < ∑ j, Real.exp (y j) :=
    Finset.sum_pos (fun j _ => Real.exp_pos (y j)) Finset.univ_nonempty
  simp only [logSoftmax, Real.exp_sub, Real.exp_log hS]
  rw [← Finset.sum_div, div_self hS.ne']

/-- Counterexample to claim C5: the training notebook also names the
LogSoftmax model's output `logits` and feeds it to the loss, and that
output is normalized, not raw — at zero weights and a zero input the
exponentials of its row sum to exactly 1. -/
theorem logsoftmax_named_logits_normalized :
    ∑ i, Real.exp (model2_logits (fun _ _ => 0) (fun _ => 0) (fun _ _ => 0) (fun _ => 0)
      (fun _ _ => 0) (fun _ => 0) (fun _ => 0) i) = 1 :=
  exp_logSoftmax_sum_one _

/-- Claim C5 as amended: the `logits` fed to `nn.CrossEntropyLoss` are the
raw final-linear-layer outputs and carry no normalization (at zero weights
their row exponentials sum to 10, not 1), but the variable the notebook
names `logits` in the LogSoftmax model is normalized: for every choice of
weights and input, the exponentials of its output row sum to exactly 1. -/
theorem logits_normalization_by_model :
    (∀ (W1 : Fin 128 → Fin 784 → ℝ) (b1 : Fin 128 → ℝ)
        (W2 : Fin 64 → Fin 128 → ℝ) (b2 : Fin 64 → ℝ)
        (W3 : Fin 10 → Fin 64 → ℝ) (b3 : Fin 10 → ℝ) (image : Fin 784 → ℝ),
        ∑ i, Real.exp (model2_logits W1 b1 W2 b2 W3 b3 image i) = 1)
    ∧ ∑ i, Real.exp (model_logits (fun _ _ => 0) (fun _ => 0) (fun _ _ => 0) (fun _ => 0)
        (fun _ _ => 0) (fun _ => 0) (fun _ => 0) i) = 10 := by
  constructor
  · intro W1 b1 W2 b2 W3 b3 image
    exact exp_logSoftmax_sum_one _
  · have h0 : model_logits (fun _ _ => 0) (fun _ => 0) (fun _ _ => 0) (fun _ => 0)
        (fun _ _ => 0) (fun _ => 0) (fun _ => 0) = fun _ => 0 := by
      funext i
      simp [model_logits, linear, relu]
    rw [h0]
    simp

/-- Claim C7: each batch iteration of the training loop runs forward/loss,
then `zero_grad`, then `backward`, then `step`, in that order; the
gradients are cleared before the backward pass, so after the body the
stored gradient is exactly the current batch's gradient at the pre-update
weights, and the optimizer updates the weights using exactly that gradient
— never before it has been computed. -/
theorem training_pass_order (n : ℕ) (β : Type) (G : (Fin n → ℝ) → β → Fin n → ℝ)
    (lr : ℝ) (batch : β) (s : TrainState n) :
    ((training_pass G lr batch s).weights
        = fun i => s.weights i - lr * G s.weights batch i)
    ∧ ((training_pass G lr batch s).grad = fun i => G s.weights batch i)
    ∧ List.indexOf TrainStep.forward_pass training_pass_steps
        < List.indexOf TrainStep.backward training_pass_steps
    ∧ List.indexOf TrainStep.zero_grad training_pass_steps
        < List.indexOf TrainStep.backward training_pass_steps
    ∧ List.indexOf TrainStep.backward training_pass_steps
        < List.indexOf TrainStep.step training_pass_steps := by
  refine ⟨?_, ?_, by decide, by decide, by decide⟩ <;> funext i <;>
    simp [training_pass, optimizer_step, loss_backward, optimizer_zero_grad]

/-- One freshly initialised layer has the required shapes exactly when its
architecture sizes equal the required ones (nonzero out-dimension, so the
weight matrix is nonempty and pins the in-dimension). -/
theorem layer_shape_ok_init (a d : ℕ × ℕ) (ha : 0 < a.2) :
    layer_shape_ok (List.replicate a.2 (List.replicate a.1 (0 : ℝ)), List.replicate a.2 (0 : ℝ)) d = true
      ↔ a = d := by
  simp only [layer_shape_ok, List.length_replicate, Bool.and_eq_true, beq_iff_eq,
    List.all_eq_true, List.mem_replicate]
  constructor
  · rintro ⟨⟨h2, hrows⟩, -⟩
    have h1 := hrows (List.replicate a.1 (0 : ℝ)) ⟨ha.ne', rfl⟩
    simp only [List.length_replicate, beq_iff_eq] at h1
    exact Prod.ext h1 h2
  · rintro rfl
    exact ⟨⟨rfl, fun r hr => by simp [hr.2]⟩, rfl⟩

/-- A state dict freshly initialised for layer sizes `da` passes the shape
check against layer sizes `db` exactly when `da = db`, provided every
out-dimension of `da` is nonzero. -/
theorem shapes_ok_init_iff (da db : List (ℕ × ℕ)) (hpos : ∀ d ∈ da, 0 < d.2) :
    shapes_ok (init_sd_of_dims da) db = true ↔ da = db := by
  induction da generalizing db with
  | nil => cases db <;> simp [shapes_ok, init_sd_of_dims]
  | cons a t ih =>
      cases db with
      | nil => simp [shapes_ok, init_sd_of_dims]
      | cons b t2 =>
          have ha : 0 < a.2 := hpos a (List.mem_cons_self a t)
          have ht : ∀ d ∈ t, 0 < d.2 := fun d hd => hpos d (List.mem_cons_of_mem a hd)
          have hsplit : shapes_ok (init_sd_of_dims (a :: t)) (b :: t2) = true
              ↔ (layer_shape_ok (List.replicate a.2 (List.replicate a.1 (0 : ℝ)),
                    List.replicate a.2 (0 : ℝ)) b = true
                  ∧ shapes_ok (init_sd_of_dims t) t2 = true) := by
            simp only [shapes_ok, init_sd_of_dims, List.map_cons, List.length_cons,
              List.zip_cons_cons, List.all_cons, Bool.and_eq_true, beq_iff_eq,
              Nat.succ.injEq, List.length_map]
            tauto
          rw [hsplit, layer_shape_ok_init a b ha, ih t2 ht]
          constructor
          · rintro ⟨rfl, rfl⟩; rfl
          · rintro h; cases h; exact ⟨rfl, rfl⟩

/-- Claim C3: for every feed-forward network (input size, output size,
hidden sizes, and a state dict whose tensor shapes match that
architecture), saving the checkpoint dictionary and then calling
`load_checkpoint` on the saved value returns the identical model — same
architecture and same parameter values — with no error. -/
theorem checkpoint_round_trip (m : Network)
    (h : shapes_ok m.state_dict
          (layer_dims m.input_size m.output_size m.hidden_layers) = true) :
    load_checkpoint (checkpoint_of m) = (m, none) := by
  cases m with
  | mk i o hl sd =>
      simp only [checkpoint_of, load_checkpoint, load_state_dict] at *
      rw [if_pos h]

/-- Witness for C3 at a small network (input 2, output 1, one hidden layer
of 2) with its freshly initialised parameters. -/
theorem checkpoint_round_trip_witness :
    load_checkpoint (checkpoint_of (Network.mk 2 1 [2] (init_sd 2 1 [2])))
      = (Network.mk 2 1 [2] (init_sd 2 1 [2]), none) :=
  checkpoint_round_trip (Network.mk 2 1 [2] (init_sd 2 1 [2])) rfl

/-- Claim C4: loading a state dict saved from one architecture into a
model of another architecture succeeds exactly when the two architectures'
layer sizes (hence tensor shapes) agree, and when it fails the model's
parameters are unchanged.  The source architecture's layer widths must be
nonzero (an empty weight tensor carries no in-dimension). -/
theorem load_state_dict_shape_check (i o i2 o2 : ℕ) (hl hl2 : List ℕ)
    (ho2 : 0 < o2) (hh2 : ∀ x ∈ hl2, 0 < x) :
    ((load_state_dict (Network.mk i o hl (init_sd i o hl)) (init_sd i2 o2 hl2)).2 = none
        ↔ layer_dims i2 o2 hl2 = layer_dims i o hl)
    ∧ ((load_state_dict (Network.mk i o hl (init_sd i o hl)) (init_sd i2 o2 hl2)).2 = none
        ∨ (load_state_dict (Network.mk i o hl (init_sd i o hl)) (init_sd i2 o2 hl2)).1
            = Network.mk i o hl (init_sd i o hl)) := by
  have hpos : ∀ d ∈ layer_dims i2 o2 hl2, 0 < d.2 := by
    intro d hd
    obtain ⟨d1, d2⟩ := d
    have hmem := (List.of_mem_zip hd).2
    rcases List.mem_append.mp hmem with hm | hm
    · exact hh2 _ hm
    · rcases List.mem_singleton.mp hm with rfl
      exact ho2
  have hiff := shapes_ok_init_iff (layer_dims i2 o2 hl2) (layer_dims i o hl) hpos
  simp only [load_state_dict, init_sd]
  split_ifs with hok
  · exact ⟨iff_of_true rfl (hiff.mp hok), Or.inl rfl⟩
  · refine ⟨iff_of_false (by simp) (fun he => hok (hiff.mpr he)), Or.inr rfl⟩

/-- Witness for C4 at the notebook's example: a model with hidden layers
`[400, 200, 100]` and a checkpoint saved from `[512, 256, 128]`. -/
theorem load_state_dict_shape_check_witness :
    ((load_state_dict (Network.mk 784 10 [400, 200, 100] (init_sd 784 10 [400, 200, 100]))
          (init_sd 784 10 [512, 256, 128])).2 = none
        ↔ layer_dims 784 10 [512, 256, 128] = layer_dims 784 10 [400, 200, 100])
    ∧ ((load_state_dict (Network.mk 784 10 [400, 200, 100] (init_sd 784 10 [400, 200, 100]))
          (init_sd 784 10 [512, 256, 128])).2 = none
        ∨ (load_state_dict (Network.mk 784 10 [400, 200, 100] (init_sd 784 10 [400, 200, 100]))
            (init_sd 784 10 [512, 256, 128])).1
            = Network.mk 784 10 [400, 200, 100] (init_sd 784 10 [400, 200, 100])) :=
  load_state_dict_shape_check 784 10 784 10 [400, 200, 100] [512, 256, 128]
    (by norm_num) (by decide)
